import Mathlib

/-!
# Verification of the HierarchicalStack entity model

Shallow embedding of the model layer of the repository:
`Src/system_model.py` (`SystemItem`, `SystemModel`),
`Src/technology_model.py` (`TechnologyItem`, `TechnologyModel`) and
`Src/connections_gui_new.py` (`Connection`, `ConnectionManager`).

Python strings holding hierarchical codes are embedded as `List Char`;
free-text fields (names, descriptions) as `String`.  Python dicts
(`self.items`) are embedded as insertion-ordered association lists with
dict update semantics (updating an existing key replaces the value in
place, keeping its position).  The `uuid` field and the JSON persistence
calls (`save`/`load`) are omitted: they are I/O and no claim below
concerns them.
-/

namespace HierStack

/-- Python `s[-n:]`: the last `n` characters of `s` (all of `s` when
`s` is shorter than `n`). -/
def takeLast {α : Type} (n : Nat) (l : List α) : List α :=
  l.drop (l.length - n)

/-- Decimal digit characters of a natural number, most significant first,
computed with explicit fuel (structural recursion).  Models the digit
sequence of Python's `repr`/`str` of a non-negative `int`. -/
def decAux : Nat → Nat → List Char
  | 0, _ => []
  | fuel + 1, n =>
    if n < 10 then [Nat.digitChar n]
    else decAux fuel (n / 10) ++ [Nat.digitChar (n % 10)]

/-- Python `str(n)` for a non-negative integer `n`, as a char list. -/
def decRepr (n : Nat) : List Char :=
  decAux (n + 1) n

/-- Python format spec `f"{n:0wd}"`: `n` in decimal, left-padded with
zeros to a minimum width `w` (wider when `n` has more than `w` digits;
no truncation, no error). -/
def pyPad (w n : Nat) : List Char :=
  List.replicate (w - (decRepr n).length) '0' ++ decRepr n

/-- Python `int(s)` for a string of decimal digits. -/
def parseDec (s : List Char) : Nat :=
  s.foldl (fun a c => 10 * a + (c.toNat - 48)) 0

/-- The root sentinel `"000000"` used by both models. -/
def root6 : List Char := ['0', '0', '0', '0', '0', '0']

/-- Python `child_index or 1` on an `Optional[int]` argument:
`None` and `0` are falsy and become `1`. -/
def orOne : Option Nat → Nat
  | none => 1
  | some 0 => 1
  | some n => n

/-- Python `parent_code[-6:] if parent_code and len(parent_code) >= 6
else "000000"` (an empty string is falsy, and also has length `< 6`). -/
def parent6Of (parent_code : Option (List Char)) : List Char :=
  match parent_code with
  | some pc => if 6 ≤ pc.length then takeLast 6 pc else root6
  | none => root6

/-- Python dict assignment `d[k] = v` on an insertion-ordered dict
represented as an association list: replace the value in place if the
key is present, else append the new binding at the end. -/
def dictInsert {V : Type} (l : List (List Char × V)) (k : List Char) (v : V) :
    List (List Char × V) :=
  if l.any (fun e => e.1 == k) then
    l.map (fun e => if e.1 == k then (k, v) else e)
  else
    l ++ [(k, v)]

/-- Update the first element of an association list whose value
satisfies `p` (Python `next((i for i in ... if p(i)), None)` followed by
a mutation of the found element). -/
def updateFirst {V : Type} (p : V → Bool) (f : V → V) :
    List (List Char × V) → List (List Char × V)
  | [] => []
  | e :: t => if p e.2 then (e.1, f e.2) :: t else e :: updateFirst p f t

/-- `Src/system_model.py` `SystemItem`: one node of the system
hierarchy.  The `uuid` field is omitted (opaque fresh identifier, used
by no claim). -/
structure SystemItem where
  name : String
  description : String
  level : Nat
  child_index : Nat
  code : List Char
  parent_code : List Char
  full_code : List Char
  attributes : List (String × String)
  children_codes : List (List Char)
  technology_refs : List (List Char)
deriving DecidableEq, Repr

/-- `SystemItem.generate_code`: `f"{level:02d}{index:04d}"`. -/
def SystemItem.generate_code (level index : Nat) : List Char :=
  pyPad 2 level ++ pyPad 4 index

/-- `SystemItem.__init__`. -/
def SystemItem.init (name description : String) (parent_code : Option (List Char))
    (level : Nat) (child_index : Option Nat) : SystemItem :=
  let ci := orOne child_index
  let code := SystemItem.generate_code level ci
  let pcode := parent6Of parent_code
  { name := name
    description := description
    level := level
    child_index := ci
    code := code
    parent_code := pcode
    full_code := pcode ++ code
    attributes := []
    children_codes := []
    technology_refs := [] }

/-- `SystemModel`: the system entity store (`self.items` dict). -/
structure SystemModel where
  items : List (List Char × SystemItem)
deriving DecidableEq, Repr

/-- `SystemModel.create_item` parent lookup:
`for itm in self.items.values(): if itm.full_code[-6:] == parent6` with
a `break` at the first match. -/
def findParent (items : List (List Char × SystemItem)) (p6 : List Char) :
    Option (List Char × SystemItem) :=
  items.find? (fun e => takeLast 6 e.2.full_code == p6)

/-- `SystemModel.create_item` sibling count: length of
`[item for item in items.values() if item.parent_code == parent6 and
int(item.code[:2]) == level]`. -/
def countSiblings (items : List (List Char × SystemItem)) (p6 : List Char)
    (level : Nat) : Nat :=
  (items.filter (fun e =>
    e.2.parent_code == p6 && (parseDec (e.2.code.take 2) == level))).length

/-- `SystemModel.create_item` child registration:
`for itm in self.items.values(): if itm.code == parent6 and parent6 !=
"000000": itm.children_codes.append(item.full_code)` — appends to
**every** matching item.  (The `parent6 != "000000"` conjunct is
discharged by the caller, which only invokes this in the non-root
branch.) -/
def registerChild (items : List (List Char × SystemItem)) (p6 full : List Char) :
    List (List Char × SystemItem) :=
  items.map (fun e =>
    if e.2.code == p6 then
      (e.1, { e.2 with children_codes := e.2.children_codes ++ [full] })
    else e)

/-- `SystemModel.create_item`.  `ValueError("Parent not found.")`
becomes `Except.error`; the write-through `self.save()` is I/O and is
omitted. -/
def SystemModel.create_item (m : SystemModel) (name description : String)
    (parent_code : Option (List Char)) : Except String (SystemItem × SystemModel) :=
  let p6 := parent6Of parent_code
  if p6 = root6 then
    -- root branch: `level, index = 0, 1` (never recomputed), and the
    -- child-registration loop's guard `parent6 != "000000"` is false.
    let item := SystemItem.init name description (some p6) 0 (some 1)
    .ok (item, ⟨dictInsert m.items item.full_code item⟩)
  else
    match findParent m.items p6 with
    | none => .error "Parent not found."
    | some pe =>
      let level := parseDec (pe.2.code.take 2) + 1
      let index := countSiblings m.items p6 level + 1
      let item := SystemItem.init name description (some p6) level (some index)
      let items1 := dictInsert m.items item.full_code item
      .ok (item, ⟨registerChild items1 p6 item.full_code⟩)

/-- `SystemModel.get_item`: exact-key dict lookup `self.items.get(code)`. -/
def SystemModel.get_item (m : SystemModel) (code : List Char) : Option SystemItem :=
  (m.items.find? (fun e => e.1 == code)).map (fun e => e.2)

/-- The in-place mutation `item.technology_refs.append(tech_code)` on
the dict entry keyed `item_code`, expressed as a store update. -/
def addTechRef (items : List (List Char × SystemItem)) (item_code tech_code : List Char) :
    List (List Char × SystemItem) :=
  items.map (fun e =>
    if e.1 == item_code then
      (e.1, { e.2 with technology_refs := e.2.technology_refs ++ [tech_code] })
    else e)

/-- `SystemModel.assign_technology`: append `tech_code` to the found
item's `technology_refs` unless already present (`if item and tech_code
not in item.technology_refs`). -/
def SystemModel.assign_technology (m : SystemModel) (item_code tech_code : List Char) :
    SystemModel :=
  match m.get_item item_code with
  | none => m
  | some item =>
    if tech_code ∈ item.technology_refs then m
    else ⟨addTechRef m.items item_code tech_code⟩

/-- The empty store (fresh project: `load` finds no file). -/
def SystemModel.empty : SystemModel := ⟨[]⟩

/-- One `create_item` call: `(name, description, parent_code)`. -/
abbrev CreateCall := String × String × Option (List Char)

/-- Run a sequence of `create_item` calls from a given store; a call
that raises (`Parent not found.`) leaves the store unchanged. -/
def runFrom (m : SystemModel) (calls : List CreateCall) : SystemModel :=
  calls.foldl (fun m c =>
    match m.create_item c.1 c.2.1 c.2.2 with
    | .ok (_, m') => m'
    | .error _ => m) m

/-- Run a sequence of `create_item` calls on an initially empty store. -/
def runCreates (calls : List CreateCall) : SystemModel :=
  runFrom SystemModel.empty calls

/-- The `SystemItem`s returned by each successful `create_item` call of
a sequence, in call order. -/
def createdItems (calls : List CreateCall) : List SystemItem :=
  (calls.foldl (fun (acc : SystemModel × List SystemItem) c =>
    match acc.1.create_item c.1 c.2.1 c.2.2 with
    | .ok (it, m') => (m', acc.2 ++ [it])
    | .error _ => acc) (SystemModel.empty, [])).2

/-- `Src/technology_model.py` `TechnologyItem`: same shape as
`SystemItem` but with no `technology_refs` field (and `uuid` omitted as
above). -/
structure TechnologyItem where
  name : String
  description : String
  level : Nat
  child_index : Nat
  code : List Char
  parent_code : List Char
  full_code : List Char
  attributes : List (String × String)
  children_codes : List (List Char)
deriving DecidableEq, Repr

/-- `TechnologyItem.generate_code`: `f"{level:02d}{index:04d}"`
(verbatim duplicate of the system one in the source). -/
def TechnologyItem.generate_code (level index : Nat) : List Char :=
  pyPad 2 level ++ pyPad 4 index

/-- `TechnologyItem.__init__`. -/
def TechnologyItem.init (name description : String) (parent_code : Option (List Char))
    (level : Nat) (child_index : Option Nat) : TechnologyItem :=
  let ci := orOne child_index
  let code := TechnologyItem.generate_code level ci
  let pcode := parent6Of parent_code
  { name := name
    description := description
    level := level
    child_index := ci
    code := code
    parent_code := pcode
    full_code := pcode ++ code
    attributes := []
    children_codes := [] }

/-- `TechnologyModel`: the technology entity store. -/
structure TechnologyModel where
  items : List (List Char × TechnologyItem)
deriving DecidableEq, Repr

/-- `TechnologyModel.create_item` parent lookup:
`next((i for i in self.items.values() if i.full_code[-6:] == parent6),
None)`. -/
def findParentT (items : List (List Char × TechnologyItem)) (p6 : List Char) :
    Option (List Char × TechnologyItem) :=
  items.find? (fun e => takeLast 6 e.2.full_code == p6)

/-- `TechnologyModel.create_item` sibling count (same comprehension as
the system model). -/
def countSiblingsT (items : List (List Char × TechnologyItem)) (p6 : List Char)
    (level : Nat) : Nat :=
  (items.filter (fun e =>
    e.2.parent_code == p6 && (parseDec (e.2.code.take 2) == level))).length

/-- `TechnologyModel.create_item` child registration:
`parent_item = next((i for i in self.items.values() if i.code ==
parent6), None); if parent_item and parent6 != "000000":
parent_item.children_codes.append(item.full_code)` — appends to the
**first** matching item only (contrast with `registerChild`). -/
def registerChildT (items : List (List Char × TechnologyItem)) (p6 full : List Char) :
    List (List Char × TechnologyItem) :=
  updateFirst (fun it => it.code == p6)
    (fun it => { it with children_codes := it.children_codes ++ [full] }) items

/-- `TechnologyModel.create_item`. -/
def TechnologyModel.create_item (m : TechnologyModel) (name description : String)
    (parent_code : Option (List Char)) :
    Except String (TechnologyItem × TechnologyModel) :=
  let p6 := parent6Of parent_code
  if p6 = root6 then
    let item := TechnologyItem.init name description (some p6) 0 (some 1)
    .ok (item, ⟨dictInsert m.items item.full_code item⟩)
  else
    match findParentT m.items p6 with
    | none => .error "Parent not found."
    | some pe =>
      let level := parseDec (pe.2.code.take 2) + 1
      let index := countSiblingsT m.items p6 level + 1
      let item := TechnologyItem.init name description (some p6) level (some index)
      let items1 := dictInsert m.items item.full_code item
      .ok (item, ⟨registerChildT items1 p6 item.full_code⟩)

/-- The empty technology store. -/
def TechnologyModel.empty : TechnologyModel := ⟨[]⟩

/-- Run a sequence of `create_item` calls on the technology store. -/
def runFromT (m : TechnologyModel) (calls : List CreateCall) : TechnologyModel :=
  calls.foldl (fun m c =>
    match m.create_item c.1 c.2.1 c.2.2 with
    | .ok (_, m') => m'
    | .error _ => m) m

/-- Run a sequence of `create_item` calls on an initially empty
technology store. -/
def runCreatesT (calls : List CreateCall) : TechnologyModel :=
  runFromT TechnologyModel.empty calls

/-- `Src/connections_gui_new.py` `Connection` (`uuid` omitted). -/
structure Connection where
  source : String
  type_id : String
  type_label : String
  target : String
  description : String
deriving DecidableEq, Repr

/-- `ConnectionManager`: flat list of connections. -/
structure ConnectionManager where
  connections : List Connection
deriving DecidableEq, Repr

/-- `ConnectionManager.add_connection`:
`self.connections.append(conn); self.save()` — unconditional append,
no validation of any kind (the `save` I/O call is omitted). -/
def ConnectionManager.add_connection (mgr : ConnectionManager) (conn : Connection) :
    ConnectionManager :=
  ⟨mgr.connections ++ [conn]⟩

/-- Store well-formedness: every entry's stored `full_code` field equals
its dict key (items are inserted with `self.items[item.full_code] =
item` and `full_code` is never mutated afterwards), and the dict keys
are pairwise distinct. -/
def storeInv (m : SystemModel) : Prop :=
  (∀ e ∈ m.items, e.2.full_code = e.1) ∧ (m.items.map Prod.fst).Nodup

/-- The characters of a string literal (codes are embedded as
`List Char`). -/
def chars (s : String) : List Char := s.data

/-- Amended referential-integrity invariant (what the code actually
maintains): every entity's `parent_code` is the root sentinel or the
trailing 6 characters of the `full_code` of some entity in the store.
(The claim's version — `parent_code` equal to a stored entity's complete
`full_code` — is refuted separately: the stored `parent_code` is always
a 6-character fragment, while full codes have 12 characters.) -/
def parentInv (m : SystemModel) : Prop :=
  ∀ e ∈ m.items, e.2.parent_code = root6 ∨
    ∃ e' ∈ m.items, takeLast 6 e'.2.full_code = e.2.parent_code

/-- Two root creations (claim C2's input). -/
def callsTwoRoots : List CreateCall := [("A", "", none), ("B", "", none)]

/-- A root and one child of it (claim C3's failing input). -/
def callsRootChild : List CreateCall :=
  [("R", "", none), ("A", "", some (chars "000000000001"))]

/-- The aliasing scenario: entities `C` (`full_code 010001020001`) and
`D` (`full_code 010002020001`) are distinct level-2 entities that share
the same 6-character `code` `020001`; `F` and `G` are children created
under `C`. -/
def callsAlias : List CreateCall :=
  [("R", "", none),
   ("A", "", some (chars "000000000001")),
   ("B", "", some (chars "000000000001")),
   ("C", "", some (chars "000001010001")),
   ("D", "", some (chars "000001010002")),
   ("F", "", some (chars "010001020001")),
   ("G", "", some (chars "010001020001"))]

/-- The store built by the aliasing scenario. -/
def aliasModel : SystemModel := runCreates callsAlias

/-- The aliasing scenario followed by creating `E` naming `D`
(`full_code 010002020001`) as parent. -/
def callsAliasE : List CreateCall :=
  callsAlias ++ [("E", "", some (chars "010002020001"))]

/-- A root with three children (claim C4's concrete instance). -/
def callsRootThree : List CreateCall :=
  [("R", "", none),
   ("c1", "", some (chars "000000000001")),
   ("c2", "", some (chars "000000000001")),
   ("c3", "", some (chars "000000000001"))]

/-- Just a root (used as the witness store for claim C7). -/
def callsRootOnly : List CreateCall := [("R", "", none)]

/-- The store entry for the root of `callsRootThree` after its three
children were created (children registered in `children_codes`). -/
def entryR3 : List Char × SystemItem :=
  (chars "000000000001",
   ⟨"R", "", 0, 1, chars "000001", chars "000000", chars "000000000001", [],
    [chars "000001010001", chars "000001010002", chars "000001010003"], []⟩)

/-- The store entry for the single root of `callsRootOnly`. -/
def entryR0 : List Char × SystemItem :=
  (chars "000000000001",
   ⟨"R", "", 0, 1, chars "000001", chars "000000", chars "000000000001", [], [], []⟩)

/-- The store entry for the child `A` of `callsRootChild`. -/
def entryA1 : List Char × SystemItem :=
  (chars "000001010001",
   ⟨"A", "", 1, 1, chars "010001", chars "000001", chars "000001010001", [], [], []⟩)

/-- Scalar agreement between a system entity and a technology entity:
equality of every per-entity field the two classes share except
`children_codes` (whose maintenance differs between the two stores;
`technology_refs` exists only on system entities). -/
def itemRel (s : SystemItem) (t : TechnologyItem) : Prop :=
  s.name = t.name ∧ s.description = t.description ∧ s.level = t.level ∧
  s.child_index = t.child_index ∧ s.code = t.code ∧
  s.parent_code = t.parent_code ∧ s.full_code = t.full_code

/-- Scalar agreement of two store entries: same dict key, related
items. -/
def entryRel (a : List Char × SystemItem) (b : List Char × TechnologyItem) : Prop :=
  a.1 = b.1 ∧ itemRel a.2 b.2

/-- Pointwise scalar agreement of a system store and a technology
store. -/
def modelsRel (m : SystemModel) (mt : TechnologyModel) : Prop :=
  List.Forall₂ entryRel m.items mt.items

/-- Agreement of the results of one system / technology `create_item`
call: both fail with the same message, or both succeed with
scalar-related items and scalar-related stores. -/
def createRel (x : Except String (SystemItem × SystemModel))
    (y : Except String (TechnologyItem × TechnologyModel)) : Prop :=
  match x, y with
  | .error e, .error e' => e = e'
  | .ok p, .ok q => itemRel p.1 q.1 ∧ modelsRel p.2 q.2
  | _, _ => False

/-! ## Helper lemmas: decimal formatting and parsing -/

theorem digitChar_toNat_sub {d : Nat} (h : d < 10) :
    (Nat.digitChar d).toNat - 48 = d := by
  interval_cases d <;> rfl

theorem parseDec_nil : parseDec [] = 0 := rfl

theorem parseDec_snoc (s : List Char) (c : Char) :
    parseDec (s ++ [c]) = 10 * parseDec s + (c.toNat - 48) := by
  simp [parseDec, List.foldl_append]

theorem parse_decAux : ∀ fuel n, n < 10 ^ fuel → parseDec (decAux fuel n) = n := by
  intro fuel
  induction fuel with
  | zero =>
    intro n h
    simp only [pow_zero, Nat.lt_one_iff] at h
    subst h
    rfl
  | succ f ih =>
    intro n h
    unfold decAux
    by_cases h10 : n < 10
    · simp only [if_pos h10]
      show 10 * 0 + ((Nat.digitChar n).toNat - 48) = n
      rw [digitChar_toNat_sub h10]
      omega
    · simp only [if_neg h10]
      rw [parseDec_snoc, ih (n / 10) ?_, digitChar_toNat_sub (Nat.mod_lt n (by norm_num))]
      · omega
      · rw [Nat.div_lt_iff_lt_mul (by norm_num : 0 < 10)]
        calc n < 10 ^ (f + 1) := h
        _ = 10 ^ f * 10 := by rw [pow_succ]

theorem length_decAux_le : ∀ fuel n k, n < 10 ^ fuel → n < 10 ^ k → 1 ≤ k →
    (decAux fuel n).length ≤ k := by
  intro fuel
  induction fuel with
  | zero =>
    intro n k h _ _
    simp only [pow_zero, Nat.lt_one_iff] at h
    subst h
    simp [decAux]
  | succ f ih =>
    intro n k h hk h1
    unfold decAux
    by_cases h10 : n < 10
    · simp only [if_pos h10, List.length_singleton]
      omega
    · simp only [if_neg h10]
      rw [List.length_append, List.length_singleton]
      have hk2 : 2 ≤ k := by
        by_contra hlt
        have : k = 1 := by omega
        subst this
        simp only [pow_one] at hk
        omega
      have hdiv : n / 10 < 10 ^ f := by
        rw [Nat.div_lt_iff_lt_mul (by norm_num : 0 < 10)]
        calc n < 10 ^ (f + 1) := h
        _ = 10 ^ f * 10 := by rw [pow_succ]
      have hdivk : n / 10 < 10 ^ (k - 1) := by
        rw [Nat.div_lt_iff_lt_mul (by norm_num : 0 < 10)]
        calc n < 10 ^ k := hk
        _ = 10 ^ (k - 1) * 10 := by
            rw [← pow_succ]
            congr 1
            omega
      have := ih (n / 10) (k - 1) hdiv hdivk (by omega)
      omega

theorem lt_pow_length_decAux : ∀ fuel n, n < 10 ^ fuel →
    n < 10 ^ (decAux fuel n).length := by
  intro fuel
  induction fuel with
  | zero =>
    intro n h
    simpa [decAux] using h
  | succ f ih =>
    intro n h
    unfold decAux
    by_cases h10 : n < 10
    · simp only [if_pos h10, List.length_singleton]
      simpa using h10
    · simp only [if_neg h10, List.length_append, List.length_singleton]
      have hdiv : n / 10 < 10 ^ f := by
        rw [Nat.div_lt_iff_lt_mul (by norm_num : 0 < 10)]
        calc n < 10 ^ (f + 1) := h
        _ = 10 ^ f * 10 := by rw [pow_succ]
      have h1 := ih (n / 10) hdiv
      have h2 : n = 10 * (n / 10) + n % 10 := (Nat.div_add_mod n 10).symm
      have h3 : n % 10 < 10 := Nat.mod_lt n (by norm_num)
      calc n = 10 * (n / 10) + n % 10 := h2
      _ < 10 * (10 ^ (decAux f (n / 10)).length) := by omega
      _ = 10 ^ ((decAux f (n / 10)).length + 1) := by rw [pow_succ]; ring

theorem lt_pow_succ_self (n : Nat) : n < 10 ^ (n + 1) :=
  lt_of_lt_of_le (Nat.lt_pow_self (by norm_num) n)
    (Nat.pow_le_pow_right (by norm_num) (Nat.le_succ n))

theorem parse_decRepr (n : Nat) : parseDec (decRepr n) = n :=
  parse_decAux (n + 1) n (lt_pow_succ_self n)

theorem length_decRepr_le {n k : Nat} (h : n < 10 ^ k) (hk : 1 ≤ k) :
    (decRepr n).length ≤ k :=
  length_decAux_le (n + 1) n k (lt_pow_succ_self n) h hk

theorem lt_pow_length_decRepr (n : Nat) : n < 10 ^ (decRepr n).length :=
  lt_pow_length_decAux (n + 1) n (lt_pow_succ_self n)

theorem length_pyPad {w n : Nat} (hw : 1 ≤ w) (h : n < 10 ^ w) :
    (pyPad w n).length = w := by
  unfold pyPad
  rw [List.length_append, List.length_replicate]
  have := length_decRepr_le h hw
  omega

theorem length_pyPad_ge (w n : Nat) : (decRepr n).length ≤ (pyPad w n).length := by
  unfold pyPad
  rw [List.length_append, List.length_replicate]
  omega

theorem foldl_parse_replicate_zero (k : Nat) :
    List.foldl (fun a c => 10 * a + (c.toNat - 48)) 0 (List.replicate k '0') = 0 := by
  induction k with
  | zero => rfl
  | succ k ih =>
    rw [List.replicate_succ, List.foldl_cons]
    exact ih

theorem parseDec_replicate_zero_append (k : Nat) (s : List Char) :
    parseDec (List.replicate k '0' ++ s) = parseDec s := by
  unfold parseDec
  rw [List.foldl_append, foldl_parse_replicate_zero]

theorem parse_pyPad (w n : Nat) : parseDec (pyPad w n) = n := by
  unfold pyPad
  rw [parseDec_replicate_zero_append, parse_decRepr]

theorem take2_generate_code {l : Nat} (i : Nat) (hl : l < 100) :
    (SystemItem.generate_code l i).take 2 = pyPad 2 l := by
  have h2 : (pyPad 2 l).length = 2 :=
    length_pyPad (by norm_num) (by norm_num at hl ⊢; exact hl)
  have := List.take_left (pyPad 2 l) (pyPad 4 i)
  rw [h2] at this
  exact this

theorem takeLast4_generate_code (l : Nat) {i : Nat} (hi : i < 10000) :
    takeLast 4 (SystemItem.generate_code l i) = pyPad 4 i := by
  have h4 : (pyPad 4 i).length = 4 :=
    length_pyPad (by norm_num) (by norm_num at hi ⊢; exact hi)
  unfold takeLast SystemItem.generate_code
  rw [List.length_append, h4]
  have harith : (pyPad 2 l).length + 4 - 4 = (pyPad 2 l).length := by omega
  rw [harith]
  exact List.drop_left (pyPad 2 l) (pyPad 4 i)

theorem length_generate_code {l i : Nat} (hl : l < 100) (hi : i < 10000) :
    (SystemItem.generate_code l i).length = 6 := by
  unfold SystemItem.generate_code
  rw [List.length_append,
    length_pyPad (by norm_num) (by norm_num at hl ⊢; exact hl),
    length_pyPad (by norm_num) (by norm_num at hi ⊢; exact hi)]

/-! ## Helper lemmas: store invariant under `create_item` -/

theorem dictInsert_keys_nodup {V : Type} {l : List (List Char × V)} {k : List Char}
    {v : V} (hn : (l.map Prod.fst).Nodup) :
    ((dictInsert l k v).map Prod.fst).Nodup := by
  unfold dictInsert
  split
  · have : (l.map (fun e => if e.1 == k then (k, v) else e)).map Prod.fst =
        l.map Prod.fst := by
      rw [List.map_map]
      apply List.map_congr_left
      intro e _
      by_cases h : e.1 == k
      · simp only [Function.comp_apply, if_pos h]
        exact (eq_of_beq h).symm
      · simp only [Function.comp_apply, if_neg h]
    rw [this]
    exact hn
  · rename_i hany
    rw [List.map_append]
    simp only [List.map_cons, List.map_nil]
    rw [List.nodup_append]
    refine ⟨hn, List.nodup_singleton k, ?_⟩
    intro a ha hb
    simp only [List.mem_singleton] at hb
    subst hb
    obtain ⟨e, he, hek⟩ := List.mem_map.mp ha
    apply hany
    rw [List.any_eq_true]
    exact ⟨e, he, by simp [hek]⟩

theorem dictInsert_full_code {l : List (List Char × SystemItem)} {v : SystemItem}
    (hf : ∀ e ∈ l, e.2.full_code = e.1) :
    ∀ e ∈ dictInsert l v.full_code v, e.2.full_code = e.1 := by
  unfold dictInsert
  split
  · intro e he
    obtain ⟨a, ha, hae⟩ := List.mem_map.mp he
    by_cases h : a.1 == v.full_code
    · rw [if_pos h] at hae
      rw [← hae]
    · rw [if_neg h] at hae
      rw [← hae]
      exact hf a ha
  · intro e he
    rcases List.mem_append.mp he with h | h
    · exact hf e h
    · simp only [List.mem_singleton] at h
      subst h
      rfl

theorem registerChild_keys (items : List (List Char × SystemItem)) (p6 full : List Char) :
    (registerChild items p6 full).map Prod.fst = items.map Prod.fst := by
  unfold registerChild
  rw [List.map_map]
  apply List.map_congr_left
  intro e _
  simp only [Function.comp_apply]
  split <;> rfl

theorem registerChild_full_code {items : List (List Char × SystemItem)}
    {p6 full : List Char} (hf : ∀ e ∈ items, e.2.full_code = e.1) :
    ∀ e ∈ registerChild items p6 full, e.2.full_code = e.1 := by
  unfold registerChild
  intro e he
  obtain ⟨a, ha, hae⟩ := List.mem_map.mp he
  by_cases h : a.2.code == p6
  · rw [if_pos h] at hae
    rw [← hae]
    exact hf a ha
  · rw [if_neg h] at hae
    rw [← hae]
    exact hf a ha

theorem create_item_storeInv {m : SystemModel} (hinv : storeInv m)
    (name description : String) (parent_code : Option (List Char)) :
    ∀ it m', m.create_item name description parent_code = .ok (it, m') → storeInv m' := by
  intro it m' hok
  obtain ⟨hf, hn⟩ := hinv
  simp only [SystemModel.create_item] at hok
  split at hok
  · simp only [Except.ok.injEq, Prod.mk.injEq] at hok
    obtain ⟨-, hm'⟩ := hok
    subst hm'
    exact ⟨dictInsert_full_code hf, dictInsert_keys_nodup hn⟩
  · split at hok
    · simp at hok
    · simp only [Except.ok.injEq, Prod.mk.injEq] at hok
      obtain ⟨-, hm'⟩ := hok
      subst hm'
      constructor
      · exact registerChild_full_code (dictInsert_full_code hf)
      · rw [registerChild_keys]
        exact dictInsert_keys_nodup hn

theorem runFrom_storeInv {m : SystemModel} (hinv : storeInv m)
    (calls : List CreateCall) : storeInv (runFrom m calls) := by
  induction calls generalizing m with
  | nil => exact hinv
  | cons c t ih =>
    rw [show runFrom m (c :: t) =
        runFrom (match m.create_item c.1 c.2.1 c.2.2 with
          | .ok (_, m') => m'
          | .error _ => m) t from rfl]
    rcases hok : m.create_item c.1 c.2.1 c.2.2 with e | ⟨it, m'⟩
    · exact ih hinv
    · exact ih (create_item_storeInv hinv _ _ _ it m' hok)

theorem storeInv_empty : storeInv SystemModel.empty := by
  constructor
  · intro e he
    cases he
  · exact List.nodup_nil

/-! ## Helper lemmas: parent references under `create_item` -/

theorem length_takeLast {α : Type} (n : Nat) (l : List α) :
    (takeLast n l).length = min n l.length := by
  unfold takeLast
  rw [List.length_drop]
  omega

theorem takeLast_of_le {α : Type} {n : Nat} {l : List α} (h : l.length ≤ n) :
    takeLast n l = l := by
  unfold takeLast
  rw [Nat.sub_eq_zero_of_le h, List.drop_zero]

theorem parent6Of_length_of_ne_root {pc : Option (List Char)}
    (h : parent6Of pc ≠ root6) : (parent6Of pc).length = 6 := by
  match pc with
  | none => exact absurd rfl h
  | some s =>
    simp only [parent6Of] at h ⊢
    by_cases hle : 6 ≤ s.length
    · rw [if_pos hle] at h ⊢
      rw [length_takeLast]
      omega
    · rw [if_neg hle] at h
      exact absurd rfl h

theorem init_parent_code_of_len6 {p6 : List Char} (h : p6.length = 6)
    (name description : String) (lv : Nat) (ci : Option Nat) :
    (SystemItem.init name description (some p6) lv ci).parent_code = p6 := by
  show parent6Of (some p6) = p6
  simp only [parent6Of]
  rw [if_pos (by omega)]
  exact takeLast_of_le (by omega)

theorem dictInsert_mem {V : Type} (l : List (List Char × V)) (k : List Char) (v : V) :
    ∀ e ∈ dictInsert l k v, e ∈ l ∨ e = (k, v) := by
  unfold dictInsert
  split
  · intro e he
    obtain ⟨a, ha, hae⟩ := List.mem_map.mp he
    by_cases h : a.1 == k
    · rw [if_pos h] at hae
      right
      exact hae.symm
    · rw [if_neg h] at hae
      left
      rw [← hae]
      exact ha
  · intro e he
    rcases List.mem_append.mp he with h | h
    · left
      exact h
    · right
      simpa using h

theorem dictInsert_exists_full_code {l : List (List Char × SystemItem)}
    {v : SystemItem} (hf : ∀ e ∈ l, e.2.full_code = e.1) :
    ∀ a ∈ l, ∃ e ∈ dictInsert l v.full_code v, e.2.full_code = a.2.full_code := by
  unfold dictInsert
  split
  · intro a ha
    refine ⟨if a.1 == v.full_code then (v.full_code, v) else a, ?_, ?_⟩
    · exact List.mem_map.mpr ⟨a, ha, rfl⟩
    · by_cases h : a.1 == v.full_code
      · rw [if_pos h]
        show v.full_code = a.2.full_code
        rw [hf a ha]
        exact (eq_of_beq h).symm
      · rw [if_neg h]
  · intro a ha
    exact ⟨a, List.mem_append.mpr (Or.inl ha), rfl⟩

theorem registerChild_mem {items : List (List Char × SystemItem)} {p6 c : List Char} :
    ∀ e ∈ registerChild items p6 c, ∃ a ∈ items,
      e.1 = a.1 ∧ e.2.parent_code = a.2.parent_code ∧ e.2.full_code = a.2.full_code ∧
      e.2.code = a.2.code ∧ e.2.level = a.2.level ∧ e.2.child_index = a.2.child_index := by
  unfold registerChild
  intro e he
  obtain ⟨a, ha, hae⟩ := List.mem_map.mp he
  refine ⟨a, ha, ?_⟩
  rw [← hae]
  split <;> simp

theorem registerChild_exists {items : List (List Char × SystemItem)} {p6 c : List Char} :
    ∀ a ∈ items, ∃ e ∈ registerChild items p6 c, e.2.full_code = a.2.full_code := by
  unfold registerChild
  intro a ha
  refine ⟨_, List.mem_map.mpr ⟨a, ha, rfl⟩, ?_⟩
  split <;> simp

theorem create_item_parentInv {m : SystemModel} (hs : storeInv m) (hp : parentInv m)
    (name description : String) (pc : Option (List Char)) :
    ∀ it m', m.create_item name description pc = .ok (it, m') → parentInv m' := by
  intro it m' hok
  simp only [SystemModel.create_item] at hok
  split at hok
  · rename_i hroot
    simp only [Except.ok.injEq, Prod.mk.injEq] at hok
    obtain ⟨-, hm'⟩ := hok
    subst hm'
    intro e he
    rcases dictInsert_mem _ _ _ e he with hmem | heq
    · rcases hp e hmem with h | ⟨e', he', hsuf⟩
      · left
        exact h
      · right
        obtain ⟨e'', he'', hfc⟩ := dictInsert_exists_full_code hs.1 e' he'
        exact ⟨e'', he'', by rw [hfc, hsuf]⟩
    · subst heq
      left
      show (SystemItem.init name description (some (parent6Of pc)) 0 (some 1)).parent_code
        = root6
      rw [hroot]
      exact init_parent_code_of_len6 (by rfl) name description 0 (some 1)
  · rename_i hnroot
    split at hok
    · simp at hok
    · rename_i pe hfind
      simp only [Except.ok.injEq, Prod.mk.injEq] at hok
      obtain ⟨-, hm'⟩ := hok
      subst hm'
      intro e he
      obtain ⟨a, ha, -, hpar, hfc, -⟩ := registerChild_mem e he
      have hlen : (parent6Of pc).length = 6 := parent6Of_length_of_ne_root hnroot
      rcases dictInsert_mem _ _ _ a ha with hmem | heq
      · rcases hp a hmem with h | ⟨e', he', hsuf⟩
        · left
          rw [hpar]
          exact h
        · right
          obtain ⟨e₁, he₁, hfc₁⟩ := dictInsert_exists_full_code hs.1 e' he'
          obtain ⟨e₂, he₂, hfc₂⟩ := registerChild_exists e₁ he₁
          exact ⟨e₂, he₂, by rw [hfc₂, hfc₁, hsuf, ← hpar]⟩
      · right
        have hpe_mem : pe ∈ m.items := by
          unfold findParent at hfind
          exact List.mem_of_find?_eq_some hfind
        have hpe_pred : takeLast 6 pe.2.full_code = parent6Of pc := by
          unfold findParent at hfind
          have h1 := List.find?_some hfind
          simp only [beq_iff_eq] at h1
          exact h1
        obtain ⟨e₁, he₁, hfc₁⟩ := dictInsert_exists_full_code hs.1 pe hpe_mem
        obtain ⟨e₂, he₂, hfc₂⟩ := registerChild_exists e₁ he₁
        refine ⟨e₂, he₂, ?_⟩
        rw [hfc₂, hfc₁, hpe_pred, hpar, heq]
        exact (init_parent_code_of_len6 hlen name description _ _).symm

theorem runFrom_parentInv {m : SystemModel} (hs : storeInv m) (hp : parentInv m)
    (calls : List CreateCall) : parentInv (runFrom m calls) := by
  induction calls generalizing m with
  | nil => exact hp
  | cons c t ih =>
    rw [show runFrom m (c :: t) =
        runFrom (match m.create_item c.1 c.2.1 c.2.2 with
          | .ok (_, m') => m'
          | .error _ => m) t from rfl]
    rcases hok : m.create_item c.1 c.2.1 c.2.2 with e | ⟨it, m'⟩
    · exact ih hs hp
    · exact ih (create_item_storeInv hs _ _ _ it m' hok)
        (create_item_parentInv hs hp _ _ _ it m' hok)

theorem parentInv_empty : parentInv SystemModel.empty := by
  intro e he
  cases he

/-! ## Helper lemmas: pad widths and key-preserving maps -/

theorem le_length_pyPad (w n : Nat) : w ≤ (pyPad w n).length := by
  unfold pyPad
  rw [List.length_append, List.length_replicate]
  omega

theorem lt_length_decRepr_of_le {k n : Nat} (h : 10 ^ k ≤ n) :
    k < (decRepr n).length := by
  have h2 := lt_pow_length_decRepr n
  by_contra hlt
  have : 10 ^ (decRepr n).length ≤ 10 ^ k :=
    Nat.pow_le_pow_right (by norm_num) (by omega)
  omega

theorem find?_map_keep_keys {f : List Char × SystemItem → List Char × SystemItem}
    (hf : ∀ e, (f e).1 = e.1) (code : List Char) :
    ∀ items : List (List Char × SystemItem),
      (items.map f).find? (fun e => e.1 == code) =
      (items.find? (fun e => e.1 == code)).map f := by
  intro items
  induction items with
  | nil => rfl
  | cons a t ih =>
    simp only [List.map_cons, List.find?_cons, hf a]
    rcases h : (a.1 == code) with _ | _
    · simp only [h]
      exact ih
    · simp only [h]
      simp

theorem parent6Of_len6 {p6 : List Char} (h : p6.length = 6) :
    parent6Of (some p6) = p6 := by
  simp only [parent6Of]
  rw [if_pos (by omega)]
  exact takeLast_of_le (by omega)

theorem nodup_keys_elim {l : List (List Char × SystemItem)}
    (hn : (l.map Prod.fst).Nodup) {a b : List Char × SystemItem}
    (ha : a ∈ l) (hb : b ∈ l) (hk : a.1 = b.1) : a = b := by
  induction l with
  | nil => cases ha
  | cons x t ih =>
    rw [List.map_cons, List.nodup_cons] at hn
    obtain ⟨hx, ht⟩ := hn
    rcases List.mem_cons.mp ha with rfl | ha'
    · rcases List.mem_cons.mp hb with rfl | hb'
      · rfl
      · exfalso
        apply hx
        rw [hk]
        exact List.mem_map.mpr ⟨b, hb', rfl⟩
    · rcases List.mem_cons.mp hb with rfl | hb'
      · exfalso
        apply hx
        rw [← hk]
        exact List.mem_map.mpr ⟨a, ha', rfl⟩
      · exact ih ht ha' hb'

theorem dictInsert_append_of_fresh {V : Type} {l : List (List Char × V)}
    {k : List Char} {v : V} (h : ¬ l.any (fun e => e.1 == k)) :
    dictInsert l k v = l ++ [(k, v)] := by
  unfold dictInsert
  rw [if_neg h]

theorem init_full_code {p6 : List Char} (h : p6.length = 6)
    (name description : String) (lv k : Nat) :
    (SystemItem.init name description (some p6) lv (some (k + 1))).full_code =
      p6 ++ SystemItem.generate_code lv (k + 1) := by
  show parent6Of (some p6) ++ SystemItem.generate_code lv (orOne (some (k + 1))) =
    p6 ++ SystemItem.generate_code lv (k + 1)
  rw [parent6Of_len6 h]
  rfl

theorem registerChild_append (l₁ l₂ : List (List Char × SystemItem))
    (p6 c : List Char) :
    registerChild (l₁ ++ l₂) p6 c = registerChild l₁ p6 c ++ registerChild l₂ p6 c := by
  unfold registerChild
  rw [List.map_append]

/-! ## Helper lemmas: system/technology store correspondence -/

theorem itemRel_init (name description : String) (pc : Option (List Char))
    (lv : Nat) (ci : Option Nat) :
    itemRel (SystemItem.init name description pc lv ci)
      (TechnologyItem.init name description pc lv ci) :=
  ⟨rfl, rfl, rfl, rfl, rfl, rfl, rfl⟩

theorem entryRel_regLeft {a : List Char × SystemItem}
    {b : List Char × TechnologyItem} (hab : entryRel a b) (p6 c : List Char) :
    entryRel (if a.2.code == p6 then
      (a.1, { a.2 with children_codes := a.2.children_codes ++ [c] }) else a) b := by
  split
  · exact ⟨hab.1, hab.2⟩
  · exact hab

theorem rel_registerChild_left {l : List (List Char × SystemItem)}
    {l' : List (List Char × TechnologyItem)} (h : List.Forall₂ entryRel l l')
    (p6 c : List Char) :
    List.Forall₂ entryRel (registerChild l p6 c) l' := by
  induction h with
  | nil => exact List.Forall₂.nil
  | cons hab ht ih => exact List.Forall₂.cons (entryRel_regLeft hab p6 c) ih

theorem rel_register_both {l : List (List Char × SystemItem)}
    {l' : List (List Char × TechnologyItem)} (h : List.Forall₂ entryRel l l')
    (p6 c c' : List Char) :
    List.Forall₂ entryRel (registerChild l p6 c) (registerChildT l' p6 c') := by
  induction h with
  | nil => exact List.Forall₂.nil
  | cons hab ht ih =>
    rename_i a b t t'
    show List.Forall₂ entryRel
      ((if a.2.code == p6 then
        (a.1, { a.2 with children_codes := a.2.children_codes ++ [c] }) else a) ::
        registerChild t p6 c)
      (updateFirst (fun it => it.code == p6)
        (fun it => { it with children_codes := it.children_codes ++ [c'] }) (b :: t'))
    rw [show updateFirst (fun it => it.code == p6)
        (fun it => { it with children_codes := it.children_codes ++ [c'] }) (b :: t') =
      if (b.2.code == p6) then
        (b.1, { b.2 with children_codes := b.2.children_codes ++ [c'] }) :: t'
      else b :: updateFirst (fun it => it.code == p6)
        (fun it => { it with children_codes := it.children_codes ++ [c'] }) t'
      from rfl]
    have hcode : (a.2.code == p6) = (b.2.code == p6) := by
      rw [hab.2.2.2.2.2.1]
    by_cases hc : (b.2.code == p6) = true
    · rw [if_pos hc, if_pos (hcode.trans hc)]
      exact List.Forall₂.cons ⟨hab.1, hab.2⟩ (rel_registerChild_left ht p6 c)
    · rw [if_neg hc, if_neg (by rw [hcode]; exact hc)]
      exact List.Forall₂.cons hab ih

theorem rel_keys {l : List (List Char × SystemItem)}
    {l' : List (List Char × TechnologyItem)} (h : List.Forall₂ entryRel l l') :
    l.map Prod.fst = l'.map Prod.fst := by
  induction h with
  | nil => rfl
  | cons hab ht ih =>
    rw [List.map_cons, List.map_cons, hab.1, ih]

theorem rel_findParent {l : List (List Char × SystemItem)}
    {l' : List (List Char × TechnologyItem)} (h : List.Forall₂ entryRel l l')
    (p6 : List Char) :
    (findParent l p6 = none ∧ findParentT l' p6 = none) ∨
    ∃ a b, findParent l p6 = some a ∧ findParentT l' p6 = some b ∧ entryRel a b := by
  induction h with
  | nil => exact Or.inl ⟨rfl, rfl⟩
  | cons hab ht ih =>
    rename_i a b t t'
    unfold findParent findParentT at ih ⊢
    rw [List.find?_cons, List.find?_cons]
    have hpred : (takeLast 6 a.2.full_code == p6) = (takeLast 6 b.2.full_code == p6) := by
      rw [hab.2.2.2.2.2.2.2]
    by_cases hc : (takeLast 6 b.2.full_code == p6) = true
    · rw [hpred, hc]
      exact Or.inr ⟨a, b, rfl, rfl, hab⟩
    · rw [hpred, Bool.of_not_eq_true hc]
      exact ih

theorem rel_countSiblings {l : List (List Char × SystemItem)}
    {l' : List (List Char × TechnologyItem)} (h : List.Forall₂ entryRel l l')
    (p6 : List Char) (lv : Nat) :
    countSiblings l p6 lv = countSiblingsT l' p6 lv := by
  induction h with
  | nil => rfl
  | cons hab ht ih =>
    rename_i a b t t'
    unfold countSiblings countSiblingsT at ih ⊢
    rw [List.filter_cons, List.filter_cons]
    have hcond : (a.2.parent_code == p6 && (parseDec (a.2.code.take 2) == lv)) =
        (b.2.parent_code == p6 && (parseDec (b.2.code.take 2) == lv)) := by
      rw [hab.2.2.2.2.2.2.1, hab.2.2.2.2.2.1]
    rw [hcond]
    by_cases hc : (b.2.parent_code == p6 && (parseDec (b.2.code.take 2) == lv)) = true
    · rw [if_pos hc, if_pos hc]
      simp only [List.length_cons]
      rw [ih]
    · rw [if_neg hc, if_neg hc]
      exact ih

theorem rel_dictInsert {l : List (List Char × SystemItem)}
    {l' : List (List Char × TechnologyItem)} (h : List.Forall₂ entryRel l l')
    (k : List Char) {v : SystemItem} {w : TechnologyItem} (hvw : itemRel v w) :
    List.Forall₂ entryRel (dictInsert l k v) (dictInsert l' k w) := by
  unfold dictInsert
  have hany : (l.any (fun e => e.1 == k)) = (l'.any (fun e => e.1 == k)) := by
    induction h with
    | nil => rfl
    | cons hab ht ih =>
      rw [List.any_cons, List.any_cons, hab.1, ih]
  rw [hany]
  by_cases hc : (l'.any (fun e => e.1 == k)) = true
  · rw [if_pos hc, if_pos hc]
    clear hany hc
    induction h with
    | nil => exact List.Forall₂.nil
    | cons hab ht ih =>
      rename_i a b t t'
      rw [List.map_cons, List.map_cons]
      refine List.Forall₂.cons ?_ ih
      have hk : (a.1 == k) = (b.1 == k) := by rw [hab.1]
      by_cases hak : (b.1 == k) = true
      · rw [hk, hak]
        simp only [if_pos]
        exact ⟨rfl, hvw⟩
      · rw [hk, Bool.of_not_eq_true hak]
        simp only [Bool.false_eq_true, if_false]
        exact hab
  · rw [if_neg hc, if_neg hc]
    exact List.rel_append h (List.Forall₂.cons ⟨rfl, hvw⟩ List.Forall₂.nil)

theorem rel_create {m : SystemModel} {mt : TechnologyModel} (h : modelsRel m mt)
    (name description : String) (pc : Option (List Char)) :
    createRel (m.create_item name description pc)
      (mt.create_item name description pc) := by
  by_cases hroot : parent6Of pc = root6
  · simp only [SystemModel.create_item, TechnologyModel.create_item]
    rw [if_pos hroot, if_pos hroot]
    exact ⟨itemRel_init name description (some (parent6Of pc)) 0 (some 1),
      rel_dictInsert h _ (itemRel_init name description (some (parent6Of pc)) 0 (some 1))⟩
  · rcases rel_findParent h (parent6Of pc) with ⟨hn1, hn2⟩ | ⟨a, b, hf1, hf2, hab⟩
    · simp only [SystemModel.create_item, TechnologyModel.create_item, hn1, hn2]
      rw [if_neg hroot, if_neg hroot]
      exact rfl
    · have hcode : parseDec (a.2.code.take 2) = parseDec (b.2.code.take 2) := by
        rw [hab.2.2.2.2.2.1]
      have hcount : countSiblings m.items (parent6Of pc) (parseDec (b.2.code.take 2) + 1) =
          countSiblingsT mt.items (parent6Of pc) (parseDec (b.2.code.take 2) + 1) :=
        rel_countSiblings h _ _
      simp only [SystemModel.create_item, TechnologyModel.create_item, hf1, hf2]
      rw [if_neg hroot, if_neg hroot, hcode, hcount]
      exact ⟨itemRel_init name description _ _ _,
        rel_register_both (rel_dictInsert h _ (itemRel_init name description _ _ _)) _ _ _⟩

theorem rel_runFrom {m : SystemModel} {mt : TechnologyModel} (h : modelsRel m mt)
    (calls : List CreateCall) : modelsRel (runFrom m calls) (runFromT mt calls) := by
  induction calls generalizing m mt with
  | nil => exact h
  | cons c t ih =>
    rw [show runFrom m (c :: t) =
        runFrom (match m.create_item c.1 c.2.1 c.2.2 with
          | .ok (_, m') => m'
          | .error _ => m) t from rfl,
      show runFromT mt (c :: t) =
        runFromT (match mt.create_item c.1 c.2.1 c.2.2 with
          | .ok (_, mt') => mt'
          | .error _ => mt) t from rfl]
    have hcr := rel_create h c.1 c.2.1 c.2.2
    rcases hok1 : m.create_item c.1 c.2.1 c.2.2 with e | ⟨it, m'⟩ <;>
      rcases hok2 : mt.create_item c.1 c.2.1 c.2.2 with e' | ⟨itt, mt'⟩ <;>
      rw [hok1, hok2] at hcr
    · exact ih h
    · exact absurd hcr (by simp [createRel])
    · exact absurd hcr (by simp [createRel])
    · exact ih hcr.2

/-! ## Claim theorems -/

/-- C1: after every sequence of `create_item` calls on an initially
empty store (calls whose parent is not found leave the store unchanged,
so the sequences of the claim — each call a root or naming an existing
parent — are covered), the `full_code`s of the entities in the store are
pairwise distinct.  This holds because the store is a dict keyed by
`full_code`: a colliding create silently *overwrites* the existing entry
(see the C2 analysis) rather than ever producing a duplicate. -/
theorem c1_full_code_unique (calls : List CreateCall) :
    ((runCreates calls).items.map (fun e => e.2.full_code)).Nodup := by
  obtain ⟨hf, hn⟩ := runFrom_storeInv storeInv_empty calls
  have : (runCreates calls).items.map (fun e => e.2.full_code) =
      (runCreates calls).items.map Prod.fst :=
    List.map_congr_left hf
  rw [show runCreates calls = runFrom SystemModel.empty calls from rfl] at this ⊢
  rw [this]
  exact hn

/-- C2 (code bug): creating two roots on an empty store does *not*
yield distinct `full_code`s with `sibling_index` 1 and 2.  The root
branch of `create_item` never counts siblings (`level, index = 0, 1` is
used unchanged), so both calls return `child_index = 1` and the same
`full_code "000000000001"`, and the second create silently overwrites
the first in the dict: one entity remains. -/
theorem c2_root_collision :
    (createdItems callsTwoRoots).map (fun i => (i.level, i.child_index, i.full_code)) =
      [(0, 1, chars "000000000001"), (0, 1, chars "000000000001")] ∧
    (runCreates callsTwoRoots).items.length = 1 := by
  decide

/-- C3 counterexample: after creating a root and a child of it, the
child's stored `parent_code` is the 6-character fragment `"000001"`
(the parent's own `code`), which is not the root sentinel and is not the
`full_code` of any entity in the store (all full codes have 12
characters). -/
theorem c3_counterexample_truncated_parent :
    (createdItems callsRootChild).map (fun i => i.parent_code) =
      [chars "000000", chars "000001"] ∧
    chars "000001" ≠ root6 ∧
    (∀ e ∈ (runCreates callsRootChild).items, e.2.full_code ≠ chars "000001") := by
  decide

/-- C3 (amended): after every sequence of `create_item` calls on an
initially empty store, every entity's `parent_code` is the root sentinel
or the trailing 6 characters (`full_code[-6:]`, the parent's own `code`
fragment) of the `full_code` of some entity in the store — never an
entity's complete `full_code`. -/
theorem c3_amended_parent_is_code_fragment (calls : List CreateCall) :
    ∀ e ∈ (runCreates calls).items, e.2.parent_code = root6 ∨
      ∃ e' ∈ (runCreates calls).items,
        takeLast 6 e'.2.full_code = e.2.parent_code :=
  runFrom_parentInv storeInv_empty parentInv_empty calls

/-- Witness for the amended C3 at the `callsRootChild` store and the
child entry `A`. -/
theorem c3_amended_parent_is_code_fragment_witness :
    entryA1 ∈ (runCreates callsRootChild).items ∧
    (entryA1.2.parent_code = root6 ∨
      ∃ e' ∈ (runCreates callsRootChild).items,
        takeLast 6 e'.2.full_code = entryA1.2.parent_code) :=
  ⟨by decide, c3_amended_parent_is_code_fragment callsRootChild entryA1 (by decide)⟩

/-- C4 counterexample (suffix aliasing): in `aliasModel` the named
parent `D` (`full_code "010002020001"`, level 2) has **zero** entities
whose `parent_code` equals its full code, so the claim predicts
`sibling_index = 0 + 1 = 1`; but creating `E` naming `D` resolves the
parent by the 6-character suffix `"020001"` (finding the unrelated
entity `C` first) and counts the aliased siblings `F` and `G`, returning
`child_index = 3`. -/
theorem c4_counterexample_aliased_sibling_count :
    (aliasModel.create_item "E" "" (some (chars "010002020001"))).toOption.map
        (fun p => (p.1.level, p.1.child_index)) = some (3, 3) ∧
    (aliasModel.items.filter
        (fun e => e.2.parent_code == chars "010002020001")).length = 0 ∧
    (aliasModel.get_item (chars "010002020001")).map (fun i => i.level) = some 2 ∧
    (3 : Nat) ≠ 0 + 1 := by
  decide

/-- C4 (amended): a `create_item` call naming a parent resolves it to
the **first** entity whose `full_code` ends with the trailing 6
characters of the given code; the new entity's `level` is `1 +` the
integer parsed from the first two characters of that entity's `code`
(equal to `parent.level + 1` when the stored code is consistent, as
hypothesised), and its `sibling_index` is `1 +` the count of entities
whose 6-character `parent_code` equals that suffix and whose parsed code
level equals the computed level — the count of the parent's direct
children only in the absence of suffix aliasing. -/
theorem c4_amended_child_level_and_index (m : SystemModel)
    (name description : String) (pc : List Char) (pe : List Char × SystemItem)
    (hnroot : parent6Of (some pc) ≠ root6)
    (hfind : findParent m.items (parent6Of (some pc)) = some pe)
    (hcode : parseDec (pe.2.code.take 2) = pe.2.level) :
    ∃ it m', m.create_item name description (some pc) = .ok (it, m') ∧
      it.level = pe.2.level + 1 ∧
      it.child_index =
        countSiblings m.items (parent6Of (some pc)) (pe.2.level + 1) + 1 := by
  simp only [SystemModel.create_item]
  rw [if_neg hnroot, hfind]
  refine ⟨_, _, rfl, ?_, ?_⟩
  · show parseDec (pe.2.code.take 2) + 1 = pe.2.level + 1
    rw [hcode]
  · show orOne (some (countSiblings m.items (parent6Of (some pc))
        (parseDec (pe.2.code.take 2) + 1) + 1)) = _
    rw [hcode]
    rfl

/-- Witness for the amended C4: creating a fourth child under a root
that has exactly three direct children yields `level = 1` and
`sibling_index = 4`. -/
theorem c4_amended_child_level_and_index_witness :
    parent6Of (some (chars "000000000001")) ≠ root6 ∧
    findParent (runCreates callsRootThree).items
      (parent6Of (some (chars "000000000001"))) = some entryR3 ∧
    parseDec (entryR3.2.code.take 2) = entryR3.2.level ∧
    countSiblings (runCreates callsRootThree).items
      (parent6Of (some (chars "000000000001"))) (entryR3.2.level + 1) = 3 ∧
    (∃ it m', (runCreates callsRootThree).create_item "c4" ""
        (some (chars "000000000001")) = .ok (it, m') ∧
      it.level = 1 ∧ it.child_index = 4) := by
  refine ⟨by decide, by decide, by decide, by decide, ?_⟩
  obtain ⟨it, m', h1, h2, h3⟩ :=
    c4_amended_child_level_and_index (runCreates callsRootThree) "c4" ""
      (chars "000000000001") entryR3 (by decide) (by decide) (by decide)
  refine ⟨it, m', h1, ?_, ?_⟩
  · rw [h2]
    decide
  · rw [h3]
    decide

/-- C5 counterexample: `generate_code` is a total function that never
raises.  On inputs that overflow their digit width it silently returns a
string wider than the fixed width 6 — `generate_code(0, 10000) =
"0010000"` and `generate_code(100, 1) = "1000001"` — rather than failing
with `InvalidArgument`. -/
theorem c5_counterexample_no_overflow_error :
    SystemItem.generate_code 0 10000 = chars "0010000" ∧
    (SystemItem.generate_code 0 10000).length = 7 ∧
    SystemItem.generate_code 100 1 = chars "1000001" := by
  decide

/-- C5 (amended): `generate_code` performs no validation and cannot
fail; it always returns the zero-padded concatenation, and whenever
either input overflows its digit width (`level ≥ 10^2` or
`sibling_index ≥ 10^4`) the result is *wider* than the fixed width 6
(string width growth instead of an `InvalidArgument` error).  It is a
pure function of its arguments (no side effects). -/
theorem c5_amended_overflow_widens (l i : Nat) (h : 100 ≤ l ∨ 10000 ≤ i) :
    SystemItem.generate_code l i = pyPad 2 l ++ pyPad 4 i ∧
    6 < (SystemItem.generate_code l i).length := by
  refine ⟨rfl, ?_⟩
  unfold SystemItem.generate_code
  rw [List.length_append]
  rcases h with h | h
  · have h3 : 2 < (decRepr l).length :=
      lt_length_decRepr_of_le (by norm_num at h ⊢; exact h)
    have h4 := length_pyPad_ge 2 l
    have h5 := le_length_pyPad 4 i
    omega
  · have h3 : 4 < (decRepr i).length :=
      lt_length_decRepr_of_le (by norm_num at h ⊢; exact h)
    have h4 := length_pyPad_ge 4 i
    have h5 := le_length_pyPad 2 l
    omega

/-- Witness for the amended C5 at `(level, index) = (100, 1)`. -/
theorem c5_amended_overflow_widens_witness :
    ((100 : Nat) ≤ 100 ∨ (10000 : Nat) ≤ 1) ∧
    (SystemItem.generate_code 100 1 = pyPad 2 100 ++ pyPad 4 1 ∧
     6 < (SystemItem.generate_code 100 1).length) :=
  ⟨Or.inl (by norm_num), c5_amended_overflow_widens 100 1 (Or.inl (by norm_num))⟩

/-- C8 counterexample: `ConnectionManager.add_connection` performs no
validation at all.  A self-loop connection (`source = target`) and a
connection with an empty endpoint are both appended to the registry
instead of failing with `InvalidConnection` (the `source != target` /
non-empty check in the source lives in the GUI handler
`ConnectionGUI.create`, on the combobox display strings, not in the
registry). -/
theorem c8_counterexample_self_loop_accepted :
    (ConnectionManager.add_connection ⟨[]⟩
        ⟨"000000000001", "MECH", "Mechanical", "000000000001", ""⟩).connections =
      [⟨"000000000001", "MECH", "Mechanical", "000000000001", ""⟩] ∧
    (⟨"000000000001", "MECH", "Mechanical", "000000000001", ""⟩ : Connection).source =
      (⟨"000000000001", "MECH", "Mechanical", "000000000001", ""⟩ : Connection).target ∧
    (ConnectionManager.add_connection ⟨[]⟩
        ⟨"", "MECH", "Mechanical", "X", ""⟩).connections =
      [⟨"", "MECH", "Mechanical", "X", ""⟩] := by
  decide

/-- C8 (amended): the registry's add operation appends the given
connection unconditionally — it never fails, imposes no self-loop or
non-empty check, and requires neither endpoint to resolve to an existing
entity (weak references). -/
theorem c8_amended_add_appends_unconditionally (mgr : ConnectionManager)
    (conn : Connection) :
    (mgr.add_connection conn).connections = mgr.connections ++ [conn] := rfl

/-- C9: `assign_technology` is idempotent.  For an entity present in
the store whose `technology_refs` does not already hold duplicates of
the technology code (true of every entity the model itself builds —
creation starts from `[]` and this is the only operation that appends,
guarded by a membership test), assigning the same pair twice gives
exactly the store of the first call, and the entity then holds the code
exactly once. -/
theorem c9_assign_technology_idempotent (m : SystemModel) (code tech : List Char)
    (it : SystemItem) (hget : m.get_item code = some it)
    (hcnt : it.technology_refs.count tech ≤ 1) :
    (m.assign_technology code tech).assign_technology code tech =
      m.assign_technology code tech ∧
    ∃ it', (m.assign_technology code tech).get_item code = some it' ∧
      it'.technology_refs.count tech = 1 := by
  by_cases hmem : tech ∈ it.technology_refs
  · have hid : m.assign_technology code tech = m := by
      simp only [SystemModel.assign_technology]
      rw [hget]
      show (if tech ∈ it.technology_refs then m
        else (⟨addTechRef m.items code tech⟩ : SystemModel)) = m
      rw [if_pos hmem]
    constructor
    · rw [hid]
      exact hid
    · refine ⟨it, by rw [hid]; exact hget, ?_⟩
      have hpos : 0 < it.technology_refs.count tech := List.count_pos_iff.mpr hmem
      omega
  · have hassign : m.assign_technology code tech = ⟨addTechRef m.items code tech⟩ := by
      simp only [SystemModel.assign_technology]
      rw [hget]
      show (if tech ∈ it.technology_refs then m
        else (⟨addTechRef m.items code tech⟩ : SystemModel)) =
        (⟨addTechRef m.items code tech⟩ : SystemModel)
      rw [if_neg hmem]
    obtain ⟨e, hfind, he2⟩ :
        ∃ e, m.items.find? (fun e => e.1 == code) = some e ∧ e.2 = it :=
      Option.map_eq_some'.mp hget
    have hek : (e.1 == code) = true := by
      have h1 := List.find?_some hfind
      simpa using h1
    have hget1 : (⟨addTechRef m.items code tech⟩ : SystemModel).get_item code =
        some { it with technology_refs := it.technology_refs ++ [tech] } := by
      unfold SystemModel.get_item addTechRef
      rw [find?_map_keep_keys (fun e => by by_cases h : e.1 == code <;> simp [h])
        code m.items, hfind]
      simp only [Option.map_some', if_pos hek, he2]
    have hmem1 : tech ∈
        ({ it with technology_refs := it.technology_refs ++ [tech] } :
          SystemItem).technology_refs := by
      simp
    constructor
    · rw [hassign]
      simp only [SystemModel.assign_technology]
      rw [hget1]
      show (if tech ∈ ({ it with technology_refs := it.technology_refs ++ [tech] } :
            SystemItem).technology_refs
          then (⟨addTechRef m.items code tech⟩ : SystemModel)
          else ⟨addTechRef (addTechRef m.items code tech) code tech⟩) =
        (⟨addTechRef m.items code tech⟩ : SystemModel)
      rw [if_pos hmem1]
    · refine ⟨_, by rw [hassign]; exact hget1, ?_⟩
      have hc0 : it.technology_refs.count tech = 0 :=
        List.count_eq_zero.mpr hmem
      show (it.technology_refs ++ [tech]).count tech = 1
      rw [List.count_append, hc0]
      simp

/-- Witness for C9: a store with one root entity and a fresh technology
code. -/
theorem c9_assign_technology_idempotent_witness :
    (runCreates callsRootOnly).get_item (chars "000000000001") = some entryR0.2 ∧
    entryR0.2.technology_refs.count (chars "T1") ≤ 1 ∧
    (((runCreates callsRootOnly).assign_technology (chars "000000000001")
        (chars "T1")).assign_technology (chars "000000000001") (chars "T1") =
      (runCreates callsRootOnly).assign_technology (chars "000000000001")
        (chars "T1") ∧
    ∃ it', ((runCreates callsRootOnly).assign_technology (chars "000000000001")
        (chars "T1")).get_item (chars "000000000001") = some it' ∧
      it'.technology_refs.count (chars "T1") = 1) :=
  ⟨by decide, by decide,
   c9_assign_technology_idempotent (runCreates callsRootOnly)
     (chars "000000000001") (chars "T1") entryR0.2 (by decide) (by decide)⟩

/-- C7 counterexample (suffix aliasing): creating `E` naming `D`
(`full_code "010002020001"`) as parent appends `E`'s `full_code`
`"020001030003"` to the `children_codes` of **every** entity whose
6-character `code` equals the suffix `"020001"` — in particular the
unrelated entity `C` (key `"010001020001"`, not the named parent) gains
it. -/
theorem c7_counterexample_aliased_registration :
    (aliasModel.create_item "E" "" (some (chars "010002020001"))).toOption.map
        (fun p => (p.1.full_code,
          p.2.items.filterMap (fun e =>
            if e.1 == chars "010001020001" then some e.2.children_codes else none))) =
      some (chars "020001030003",
        [[chars "020001030001", chars "020001030002", chars "020001030003"]]) ∧
    chars "010001020001" ≠ chars "010002020001" := by
  decide

/-- C7 (amended): a successful child `create_item` appends the new
entity's `full_code` once to the `children_codes` of **every** entity
whose `code` equals the parent suffix.  When the resolved parent entry
`pe` is the *only* entity whose `code` equals the suffix (no aliasing),
and the new full code is fresh, exactly the parent's entry gains the new
`full_code` — exactly once — and no other entity's `children_codes`
contains it. -/
theorem c7_amended_child_registration (m : SystemModel)
    (name description : String) (pc : List Char) (pe : List Char × SystemItem)
    (lv idx : Nat)
    (hnroot : parent6Of (some pc) ≠ root6)
    (hfind : findParent m.items (parent6Of (some pc)) = some pe)
    (hnodup : (m.items.map Prod.fst).Nodup)
    (hlv : lv = parseDec (pe.2.code.take 2) + 1)
    (hidx : idx = countSiblings m.items (parent6Of (some pc)) lv)
    (hpcode : pe.2.code = parent6Of (some pc))
    (huniq : ∀ e ∈ m.items, e.2.code = parent6Of (some pc) → e = pe)
    (hnewcode : SystemItem.generate_code lv (idx + 1) ≠ parent6Of (some pc))
    (hfreshkey : ∀ e ∈ m.items,
      e.1 ≠ parent6Of (some pc) ++ SystemItem.generate_code lv (idx + 1))
    (hnotin : ∀ e ∈ m.items,
      parent6Of (some pc) ++ SystemItem.generate_code lv (idx + 1) ∉
        e.2.children_codes) :
    ∃ it m', m.create_item name description (some pc) = .ok (it, m') ∧
      it.full_code = parent6Of (some pc) ++ SystemItem.generate_code lv (idx + 1) ∧
      (∃ e ∈ m'.items, e.1 = pe.1) ∧
      (∀ e ∈ m'.items, e.1 = pe.1 →
        e.2.children_codes.count it.full_code = 1) ∧
      (∀ e ∈ m'.items, e.1 ≠ pe.1 → it.full_code ∉ e.2.children_codes) := by
  subst hlv
  subst hidx
  have hlen6 : (parent6Of (some pc)).length = 6 := parent6Of_length_of_ne_root hnroot
  have hpe_mem : pe ∈ m.items := by
    unfold findParent at hfind
    exact List.mem_of_find?_eq_some hfind
  simp only [SystemModel.create_item, hfind]
  rw [if_neg hnroot]
  set item := SystemItem.init name description (some (parent6Of (some pc)))
    (parseDec (pe.2.code.take 2) + 1)
    (some (countSiblings m.items (parent6Of (some pc))
      (parseDec (pe.2.code.take 2) + 1) + 1)) with hitemdef
  have hfull : item.full_code = parent6Of (some pc) ++
      SystemItem.generate_code (parseDec (pe.2.code.take 2) + 1)
        (countSiblings m.items (parent6Of (some pc))
          (parseDec (pe.2.code.take 2) + 1) + 1) := by
    rw [hitemdef]
    exact init_full_code hlen6 name description _ _
  have hitemcode : item.code =
      SystemItem.generate_code (parseDec (pe.2.code.take 2) + 1)
        (countSiblings m.items (parent6Of (some pc))
          (parseDec (pe.2.code.take 2) + 1) + 1) := by
    rw [hitemdef]
    rfl
  have hitemchildren : item.children_codes = [] := by
    rw [hitemdef]
    rfl
  have hfreshany : ¬ m.items.any (fun e => e.1 == item.full_code) := by
    intro hany
    obtain ⟨e, he, heq⟩ := List.any_eq_true.mp hany
    exact hfreshkey e he ((eq_of_beq heq).trans hfull)
  rw [dictInsert_append_of_fresh hfreshany, registerChild_append]
  have hsingle : registerChild [(item.full_code, item)] (parent6Of (some pc))
      item.full_code = [(item.full_code, item)] := by
    unfold registerChild
    simp only [List.map_cons, List.map_nil]
    rw [if_neg (by rw [hitemcode]; simpa using hnewcode)]
  rw [hsingle]
  refine ⟨_, _, rfl, hfull, ?_, ?_, ?_⟩
  · -- the parent's entry is present in the new store
    refine ⟨(fun e => if e.2.code == parent6Of (some pc) then
        (e.1, { e.2 with children_codes := e.2.children_codes ++ [item.full_code] })
        else e) pe, ?_, ?_⟩
    · apply List.mem_append.mpr
      left
      exact List.mem_map.mpr ⟨pe, hpe_mem, rfl⟩
    · by_cases h : pe.2.code == parent6Of (some pc) <;> simp [h]
  · -- entries with the parent's key contain the new full code exactly once
    intro e he hkey
    rcases List.mem_append.mp he with hL | hR
    · unfold registerChild at hL
      obtain ⟨a, ha, rfl⟩ := List.mem_map.mp hL
      have hka : ((fun e => if e.2.code == parent6Of (some pc) then
          (e.1, { e.2 with children_codes := e.2.children_codes ++ [item.full_code] })
          else e) a).1 = a.1 := by
        by_cases h : a.2.code == parent6Of (some pc) <;> simp [h]
      have ha_pe : a = pe := nodup_keys_elim hnodup ha hpe_mem (by rw [← hka]; exact hkey)
      subst ha_pe
      rw [if_pos (by rw [hpcode]; exact beq_self_eq_true _)]
      show (a.2.children_codes ++ [item.full_code]).count item.full_code = 1
      rw [List.count_append,
        List.count_eq_zero.mpr (by rw [hfull]; exact hnotin a ha)]
      simp
    · simp only [List.mem_singleton] at hR
      subst hR
      exact absurd (hkey.symm.trans hfull) (hfreshkey pe hpe_mem)
  · -- entries with any other key never contain the new full code
    intro e he hkey
    rcases List.mem_append.mp he with hL | hR
    · unfold registerChild at hL
      obtain ⟨a, ha, rfl⟩ := List.mem_map.mp hL
      have hka : ((fun e => if e.2.code == parent6Of (some pc) then
          (e.1, { e.2 with children_codes := e.2.children_codes ++ [item.full_code] })
          else e) a).1 = a.1 := by
        by_cases h : a.2.code == parent6Of (some pc) <;> simp [h]
      have hane : a ≠ pe := by
        intro hcontra
        exact hkey (by rw [hka, hcontra])
      have hcode_ne : ¬ (a.2.code == parent6Of (some pc)) = true := by
        intro hc
        exact hane (huniq a ha (eq_of_beq hc))
      rw [if_neg hcode_ne]
      rw [hfull]
      exact hnotin a ha
    · simp only [List.mem_singleton] at hR
      subst hR
      rw [hitemchildren]
      simp

/-- Witness for the amended C7: creating the first child under a lone
root registers the child's `full_code` exactly once in the root's
`children_codes` and nowhere else. -/
theorem c7_amended_child_registration_witness :
    parent6Of (some (chars "000000000001")) ≠ root6 ∧
    findParent (runCreates callsRootOnly).items
      (parent6Of (some (chars "000000000001"))) = some entryR0 ∧
    ((runCreates callsRootOnly).items.map Prod.fst).Nodup ∧
    (1 : Nat) = parseDec (entryR0.2.code.take 2) + 1 ∧
    (0 : Nat) = countSiblings (runCreates callsRootOnly).items
      (parent6Of (some (chars "000000000001"))) 1 ∧
    entryR0.2.code = parent6Of (some (chars "000000000001")) ∧
    (∀ e ∈ (runCreates callsRootOnly).items,
      e.2.code = parent6Of (some (chars "000000000001")) → e = entryR0) ∧
    SystemItem.generate_code 1 (0 + 1) ≠ parent6Of (some (chars "000000000001")) ∧
    (∀ e ∈ (runCreates callsRootOnly).items,
      e.1 ≠ parent6Of (some (chars "000000000001")) ++
        SystemItem.generate_code 1 (0 + 1)) ∧
    (∀ e ∈ (runCreates callsRootOnly).items,
      parent6Of (some (chars "000000000001")) ++ SystemItem.generate_code 1 (0 + 1) ∉
        e.2.children_codes) ∧
    (∃ it m', (runCreates callsRootOnly).create_item "A" ""
        (some (chars "000000000001")) = .ok (it, m') ∧
      it.full_code = parent6Of (some (chars "000000000001")) ++
        SystemItem.generate_code 1 (0 + 1) ∧
      (∃ e ∈ m'.items, e.1 = entryR0.1) ∧
      (∀ e ∈ m'.items, e.1 = entryR0.1 →
        e.2.children_codes.count it.full_code = 1) ∧
      (∀ e ∈ m'.items, e.1 ≠ entryR0.1 → it.full_code ∉ e.2.children_codes)) :=
  ⟨by decide, by decide, by decide, by decide, by decide, by decide, by decide,
   by decide, by decide, by decide,
   c7_amended_child_registration (runCreates callsRootOnly) "A" ""
     (chars "000000000001") entryR0 1 0 (by decide) (by decide) (by decide)
     (by decide) (by decide) (by decide) (by decide) (by decide) (by decide)
     (by decide)⟩

/-- C10 counterexample: after the identical call sequence
`callsAliasE` on both stores, the entity keyed `"010002020001"` (`D`)
has `children_codes = [F, G, E]` in the system store (whose registration
loop appends to *every* entity with the matching 6-character code) but
`children_codes = []` in the technology store (which appends to the
*first* matching entity only) — the two stores do not agree on
`children_codes`. -/
theorem c10_counterexample_children_codes_diverge :
    (runCreates callsAliasE).items.filterMap (fun e =>
        if e.1 == chars "010002020001" then some e.2.children_codes else none) =
      [[chars "020001030001", chars "020001030002", chars "020001030003"]] ∧
    (runCreatesT callsAliasE).items.filterMap (fun e =>
        if e.1 == chars "010002020001" then some e.2.children_codes else none) =
      [[]] := by
  decide

/-- C10 (amended): for every identical sequence of
`(name, description, parent_code)` calls to the two `create_item`s from
empty stores, the stores correspond entry by entry: same dict keys in
the same order and entities agreeing on `name`, `description`, `level`,
`child_index`, `code`, `parent_code` and `full_code`.  (`children_codes`
equality is dropped: the child-registration loops differ — see the
counterexample.) -/
theorem c10_amended_scalar_equivalence (calls : List CreateCall) :
    modelsRel (runCreates calls) (runCreatesT calls) :=
  rel_runFrom List.Forall₂.nil calls

/-- C6: for `0 ≤ level < 10^2` and `1 ≤ sibling_index < 10^4` (the
source fixes `hierarchy_digits = 2`, `sibling_digits = 4`),
`generate_code` returns the fixed-width (length 6) concatenation of the
zero-padded level and sibling index; it is injective over that domain,
and parsing the first 2 / last 4 characters back recovers
`(level, sibling_index)`. -/
theorem c6_generate_code_roundtrip (l i l' i' : Nat)
    (hl : l < 100) (hi1 : 1 ≤ i) (hi : i < 10000)
    (hl' : l' < 100) (hi1' : 1 ≤ i') (hi' : i' < 10000) :
    SystemItem.generate_code l i = pyPad 2 l ++ pyPad 4 i ∧
    (SystemItem.generate_code l i).length = 6 ∧
    parseDec ((SystemItem.generate_code l i).take 2) = l ∧
    parseDec (takeLast 4 (SystemItem.generate_code l i)) = i ∧
    (SystemItem.generate_code l i = SystemItem.generate_code l' i' →
      l = l' ∧ i = i') := by
  refine ⟨rfl, length_generate_code hl hi, ?_, ?_, ?_⟩
  · rw [take2_generate_code i hl, parse_pyPad]
  · rw [takeLast4_generate_code l hi, parse_pyPad]
  · intro heq
    constructor
    · have h1 : parseDec ((SystemItem.generate_code l i).take 2) = l := by
        rw [take2_generate_code i hl, parse_pyPad]
      have h2 : parseDec ((SystemItem.generate_code l' i').take 2) = l' := by
        rw [take2_generate_code i' hl', parse_pyPad]
      rw [← h1, ← h2, heq]
    · have h1 : parseDec (takeLast 4 (SystemItem.generate_code l i)) = i := by
        rw [takeLast4_generate_code l hi, parse_pyPad]
      have h2 : parseDec (takeLast 4 (SystemItem.generate_code l' i')) = i' := by
        rw [takeLast4_generate_code l' hi', parse_pyPad]
      rw [← h1, ← h2, heq]

/-- Witness for C6 at `(level, index) = (1, 23)` and `(0, 1)`. -/
theorem c6_generate_code_roundtrip_witness :
    (1 : Nat) < 100 ∧ (1 : Nat) ≤ 23 ∧ (23 : Nat) < 10000 ∧
    (0 : Nat) < 100 ∧ (1 : Nat) ≤ 1 ∧ (1 : Nat) < 10000 ∧
    (SystemItem.generate_code 1 23 = pyPad 2 1 ++ pyPad 4 23 ∧
     (SystemItem.generate_code 1 23).length = 6 ∧
     parseDec ((SystemItem.generate_code 1 23).take 2) = 1 ∧
     parseDec (takeLast 4 (SystemItem.generate_code 1 23)) = 23 ∧
     (SystemItem.generate_code 1 23 = SystemItem.generate_code 0 1 →
       1 = 0 ∧ 23 = 1)) :=
  ⟨by norm_num, by norm_num, by norm_num, by norm_num, by norm_num, by norm_num,
   c6_generate_code_roundtrip 1 23 0 1 (by norm_num) (by norm_num) (by norm_num)
     (by norm_num) (by norm_num) (by norm_num)⟩

end HierStack
